import Mathlib

/-
  Verification of the cf-backtester core (Capital Flow backtesting engine).

  Shallow embedding conventions:
  * Go float64 values are modelled as rationals (ℚ); Go int as ℤ where the
    source value can be negative or configuration-controlled, and ℕ for loop
    counters that start at 0.
  * Go slice expressions `xs[lo:hi]` panic when the bounds are invalid; they
    are modelled by `goSlice`, which returns `none` exactly when Go panics.
  * Functions whose Go counterpart can panic return `Option`.

  Sources embedded:
  * internal/strategy/cf_calculator.go  (CFCalculator)
  * internal/uploader/csv.go            (ATRCalculator, ADXCalculator)
  * internal/backtester/engine.go       (trading loop, signals, metrics)
-/

namespace CFBacktester

/-- Candle from internal/models/candle.go (`Open` is named `openP`;
the identifier `open` is reserved in Lean). -/
structure Candle where
  timestamp : ℤ
  openP : ℚ
  high : ℚ
  low : ℚ
  close : ℚ
  volume : ℚ
deriving DecidableEq

/-- Zero value of Candle (Go zero value, used as the out-of-range default of
total list indexing; the source never reads out of range where we rely on it). -/
def defaultCandle : Candle := ⟨0, 0, 0, 0, 0, 0⟩

/-- The fields of models.StrategyConfig that the embedded core reads. -/
structure StrategyConfig where
  totalKlines : ℤ
  customAmplitude : ℚ
  secondCFEnv : ℚ
  epsilon : ℚ
  newTotalKlinesMin : ℤ
  newTotalKlinesMax : ℤ
  secondTotalKlinesMin : ℤ
  adxThreshold : ℚ
deriving DecidableEq

/-- Go slice expression `xs[lo:hi]`: `none` iff Go would panic
(`0 ≤ lo ≤ hi ≤ len(xs)` violated). -/
def goSlice (xs : List Candle) (lo hi : ℤ) : Option (List Candle) :=
  if 0 ≤ lo ∧ lo ≤ hi ∧ hi ≤ (xs.length : ℤ) then
    some ((xs.drop lo.toNat).take (hi - lo).toNat)
  else
    none

/-- Go `int(f)` conversion of a float: truncation toward zero
(`Int.tdiv` is T-division, i.e. rounds toward zero, and `q.den > 0`). -/
def truncToZero (q : ℚ) : ℤ := Int.tdiv q.num (q.den : ℤ)

/-- cf_calculator.go findMaxHigh: 0 on an empty list, else the running max
of the High fields. -/
def findMaxHigh (candles : List Candle) : ℚ :=
  match candles with
  | [] => 0
  | c :: rest => rest.foldl (fun m x => if x.high > m then x.high else m) c.high

/-- cf_calculator.go findMinLow: 0 on an empty list, else the running min
of the Low fields. -/
def findMinLow (candles : List Candle) : ℚ :=
  match candles with
  | [] => 0
  | c :: rest => rest.foldl (fun m x => if x.low < m then x.low else m) c.low

/-- cf_calculator.go clamp. -/
def clamp (value mn mx : ℤ) : ℤ :=
  if value < mn then mn else if value > mx then mx else value

/-- cf_calculator.go calculateCF: half-split percent-change oscillator;
windows shorter than 4 return the previous CF value. -/
def calculateCF (window : List Candle) (prevCF : ℚ) : ℚ :=
  if window.length < 4 then prevCF
  else
    let half := window.length / 2
    let segment1 := window.take half
    let segment2 := window.drop half
    let h1 := findMaxHigh segment1
    let l1 := findMinLow segment1
    let h2 := findMaxHigh segment2
    let l2 := findMinLow segment2
    let hCF := if h1 ≠ 0 then ((h2 - h1) / h1) * 100 else 0
    let lCF := if l1 ≠ 0 then ((l2 - l1) / l1) * 100 else 0
    (hCF + lCF) / 2

/-- cf_calculator.go calculateNewTotalKlines: adaptive window size.
`none` iff the Go slice `candles[t-totalKlines+1 : t+1]` panics. -/
def calculateNewTotalKlines (cfg : StrategyConfig) (candles : List Candle) (t : ℤ) : Option ℤ :=
  match goSlice candles (t - cfg.totalKlines + 1) (t + 1) with
  | none => none
  | some window =>
    let highWindow := findMaxHigh window
    let lowWindow := findMinLow window
    if lowWindow = 0 then some cfg.totalKlines
    else
      let aCurrent := (highWindow - lowWindow) / lowWindow
      let aSafe := max aCurrent cfg.epsilon
      let newTotalKlinesFloat := (cfg.totalKlines : ℚ) * cfg.customAmplitude / aSafe
      some (clamp (truncToZero newTotalKlinesFloat) cfg.newTotalKlinesMin cfg.newTotalKlinesMax)

/-- cf_calculator.go CalculateMainCF: returns `(mainCF, newTotalKlines)`;
`none` iff one of the Go slice expressions panics. -/
def CalculateMainCF (cfg : StrategyConfig) (candles : List Candle) (t : ℤ) (prevCF : ℚ) :
    Option (ℚ × ℤ) :=
  if t < cfg.totalKlines then some (0, cfg.totalKlines)
  else
    match calculateNewTotalKlines cfg candles t with
    | none => none
    | some newTotalKlines =>
      match goSlice candles (t - newTotalKlines + 1) (t + 1) with
      | none => none
      | some window => some (calculateCF window prevCF, newTotalKlines)

/-- cf_calculator.go calculateSecondTotalKlines. -/
def calculateSecondTotalKlines (cfg : StrategyConfig) (mainCFEntry : ℚ) (prevSecondTotalKlines : ℤ) : ℤ :=
  if mainCFEntry = 0 ∨ cfg.secondCFEnv = 0 then cfg.secondTotalKlinesMin
  else
    let divisor := mainCFEntry * cfg.secondCFEnv
    if divisor = 0 then prevSecondTotalKlines
    else
      let secondTotalKlines := truncToZero ((prevSecondTotalKlines : ℚ) / |divisor|)
      if secondTotalKlines < cfg.secondTotalKlinesMin then cfg.secondTotalKlinesMin
      else secondTotalKlines

/-- cf_calculator.go CalculateSecondCF: returns `(secondCF, secondTotalKlines)`;
`none` iff the Go slice `candles[entryIdx : entryIdx+secondTotalKlines]` panics. -/
def CalculateSecondCF (cfg : StrategyConfig) (candles : List Candle) (entryIdx : ℤ)
    (mainCFEntry : ℚ) (prevSecondTotalKlines : ℤ) : Option (ℚ × ℤ) :=
  let secondTotalKlines := calculateSecondTotalKlines cfg mainCFEntry prevSecondTotalKlines
  if (candles.length : ℤ) ≤ entryIdx + secondTotalKlines then some (0, secondTotalKlines)
  else
    match goSlice candles entryIdx (entryIdx + secondTotalKlines) with
    | none => none
    | some window => some (calculateCF window 0, secondTotalKlines)

/-- The SecondCF assignments of Engine.calculateCFIndicators (engine.go):
index 0 is skipped (left 0); index i ≥ 1 is `CalculateSecondCF(candles[:i+1], i, 0)`.
The source call omits the trailing `prevSecondTotalKlines` argument; it is
modelled as 0 and is irrelevant because `mainCFEntry = 0` short-circuits
`calculateSecondTotalKlines`.  `none` iff some iteration panics. -/
def secondCFSeries (cfg : StrategyConfig) (candles : List Candle) : Option (List ℚ) :=
  (List.range candles.length).mapM (fun i =>
    if i = 0 then some (0 : ℚ)
    else (CalculateSecondCF cfg (candles.take (i + 1)) (i : ℤ) 0 0).map Prod.fst)

/-- Total list read `l[i]` used where the source only indexes in range
(default 0 out of range). -/
def gq (l : List ℚ) (i : ℕ) : ℚ := l.getD i 0

/-- Total candle read `candles[i]` (default `defaultCandle` out of range). -/
def cAt (l : List Candle) (i : ℕ) : Candle := l.getD i defaultCandle

/-- csv.go: True Range sequence `tr` shared by ATRCalculator.Calculate and
ADXCalculator.Calculate (both compute it with the identical formula):
`tr[0] = high[0]-low[0]`, `tr[i] = max(H-L, |H-PC|, |L-PC|)`. -/
def trF (candles : List Candle) : ℕ → ℚ
  | 0 => (cAt candles 0).high - (cAt candles 0).low
  | (i + 1) =>
    max ((cAt candles (i + 1)).high - (cAt candles (i + 1)).low)
      (max |(cAt candles (i + 1)).high - (cAt candles i).close|
        |(cAt candles (i + 1)).low - (cAt candles i).close|)

/-- csv.go ADXCalculator.Calculate: raw `+DM` (`plusDM[0] = 0`). -/
def plusDMF (candles : List Candle) : ℕ → ℚ
  | 0 => 0
  | (i + 1) =>
    let highDiff := (cAt candles (i + 1)).high - (cAt candles i).high
    let lowDiff := (cAt candles i).low - (cAt candles (i + 1)).low
    if highDiff > lowDiff ∧ highDiff > 0 then highDiff else 0

/-- csv.go ADXCalculator.Calculate: raw `-DM` (`minusDM[0] = 0`). -/
def minusDMF (candles : List Candle) : ℕ → ℚ
  | 0 => 0
  | (i + 1) =>
    let highDiff := (cAt candles (i + 1)).high - (cAt candles i).high
    let lowDiff := (cAt candles i).low - (cAt candles (i + 1)).low
    if lowDiff > highDiff ∧ lowDiff > 0 then lowDiff else 0

/-- EMA recurrence used throughout csv.go: seed = raw value at 0,
`s[i] = alpha*x[i] + (1-alpha)*s[i-1]`. -/
def ema (alpha : ℚ) (f : ℕ → ℚ) : ℕ → ℚ
  | 0 => f 0
  | (i + 1) => alpha * f (i + 1) + (1 - alpha) * ema alpha f i

/-- csv.go: `alpha := 2.0 / float64(period+1)`. -/
def alphaOf (period : ℤ) : ℚ := 2 / ((period : ℚ) + 1)

/-- csv.go ADXCalculator.Calculate: `+DI[i]` (0 when smoothed TR is 0). -/
def plusDIF (period : ℤ) (candles : List Candle) (i : ℕ) : ℚ :=
  if ema (alphaOf period) (trF candles) i ≠ 0 then
    (ema (alphaOf period) (plusDMF candles) i / ema (alphaOf period) (trF candles) i) * 100
  else 0

/-- csv.go ADXCalculator.Calculate: `-DI[i]` (0 when smoothed TR is 0). -/
def minusDIF (period : ℤ) (candles : List Candle) (i : ℕ) : ℚ :=
  if ema (alphaOf period) (trF candles) i ≠ 0 then
    (ema (alphaOf period) (minusDMF candles) i / ema (alphaOf period) (trF candles) i) * 100
  else 0

/-- csv.go ADXCalculator.Calculate: `DX[i]` (0 when `+DI[i] + -DI[i]` is 0). -/
def dxF (period : ℤ) (candles : List Candle) (i : ℕ) : ℚ :=
  if plusDIF period candles i + minusDIF period candles i ≠ 0 then
    (|plusDIF period candles i - minusDIF period candles i| /
      (plusDIF period candles i + minusDIF period candles i)) * 100
  else 0

/-- csv.go ADXCalculator.Calculate: `ADX` = EMA of `DX`, seeded at index 0. -/
def adxSeriesF (period : ℤ) (candles : List Candle) : ℕ → ℚ :=
  ema (alphaOf period) (dxF period candles)

namespace ADXCalculator

/-- csv.go ADXCalculator.Calculate: returns `(ADX, +DI, -DI)`; fewer than 2
candles yields zero-filled series of matching length. -/
def Calculate (period : ℤ) (candles : List Candle) : List ℚ × List ℚ × List ℚ :=
  if candles.length < 2 then
    (List.replicate candles.length 0, List.replicate candles.length 0,
      List.replicate candles.length 0)
  else
    ((List.range candles.length).map (adxSeriesF period candles),
      (List.range candles.length).map (plusDIF period candles),
      (List.range candles.length).map (minusDIF period candles))

end ADXCalculator

namespace ATRCalculator

/-- csv.go ATRCalculator.Calculate: EMA of TR; fewer than 2 candles yields a
zero-filled series of matching length. -/
def Calculate (period : ℤ) (candles : List Candle) : List ℚ :=
  if candles.length < 2 then List.replicate candles.length 0
  else (List.range candles.length).map (ema (alphaOf period) (trF candles))

end ATRCalculator

/-- engine.go Position. -/
structure Position where
  side : String
  entryPrice : ℚ
  entryTime : ℤ
  size : ℚ
  stopLoss : ℚ
  takeProfit : ℚ
deriving DecidableEq

/-- models.Trade (fields used by the engine; `pnl` is written after
closePosition returns, as in executeBacktest). -/
structure Trade where
  side : String
  entryPrice : ℚ
  entryTime : ℤ
  exitPrice : ℚ
  exitTime : ℤ
  size : ℚ
  pnl : ℚ
deriving DecidableEq

/-- Zero value of Trade. -/
def defaultTrade : Trade := ⟨"", 0, 0, 0, 0, 0, 0⟩

/-- The aligned indicator arrays executeBacktest receives. -/
structure IndicatorData where
  mainCF : List ℚ
  secondCF : List ℚ
  atr : List ℚ
  atrPercent : List ℚ
  adx : List ℚ
  plusDI : List ℚ
  minusDI : List ℚ
deriving DecidableEq

/-- engine.go checkEntrySignal (the `secondCF` and `atrPercent` parameters
are unused in the source too).  The source's two nested `if` blocks are
flattened into guard conjunctions; falling through the long block's inner
test reaches the short test exactly as in the source. -/
def checkEntrySignal (idx : ℕ) (mainCF secondCF adx plusDI minusDI atrPercent : List ℚ)
    (adxThreshold : ℚ) : String :=
  if idx < 2 then ""
  else if gq mainCF idx > 0 ∧ gq mainCF (idx - 1) ≤ 0 ∧ gq adx idx > adxThreshold ∧
      gq plusDI idx > gq minusDI idx then "LONG"
  else if gq mainCF idx < 0 ∧ gq mainCF (idx - 1) ≥ 0 ∧ gq adx idx > adxThreshold ∧
      gq minusDI idx > gq plusDI idx then "SHORT"
  else ""

/-- engine.go openPosition: entry at close, size = 10% of balance / close,
SL/TP at entry ∓ 2*ATR / ± 3*ATR by side. -/
def openPosition (signal : String) (candle : Candle) (atr balance : ℚ) : Position :=
  { side := signal
    entryPrice := candle.close
    entryTime := candle.timestamp
    size := balance * (1 / 10) / candle.close
    stopLoss := if signal = "LONG" then candle.close - 2 * atr else candle.close + 2 * atr
    takeProfit := if signal = "LONG" then candle.close + 3 * atr else candle.close - 3 * atr }

/-- engine.go checkExitSignal (the `atr` parameter is unused in the source too). -/
def checkExitSignal (position : Position) (candle : Candle) (atr : ℚ) : Bool :=
  if position.side = "LONG" then
    if candle.low ≤ position.stopLoss ∨ position.takeProfit ≤ candle.high then true else false
  else
    if position.stopLoss ≤ candle.high ∨ candle.low ≤ position.takeProfit then true else false

/-- engine.go closePosition: exit at the triggered SL/TP level (stop-loss
checked first for longs, symmetric for shorts), otherwise at the close;
`pnl` is filled in later by the caller. -/
def closePosition (position : Position) (candle : Candle) : Trade :=
  let exitPrice :=
    if position.side = "LONG" then
      if candle.low ≤ position.stopLoss then position.stopLoss
      else if position.takeProfit ≤ candle.high then position.takeProfit
      else candle.close
    else
      if position.stopLoss ≤ candle.high then position.stopLoss
      else if candle.low ≤ position.takeProfit then position.takeProfit
      else candle.close
  { side := position.side
    entryPrice := position.entryPrice
    entryTime := position.entryTime
    exitPrice := exitPrice
    exitTime := candle.timestamp
    size := position.size
    pnl := 0 }

/-- State of the executeBacktest trading loop. -/
structure SimState where
  balance : ℚ
  pos : Option Position
  trades : List Trade
deriving DecidableEq

/-- One iteration of the executeBacktest trading loop at candle index `i`:
when flat, query the entry signal and possibly open (debiting
`size * close`); when holding, query the exit signal and possibly close
(crediting `exitPrice * size` and recording the pnl, negated for shorts). -/
def stepSim (cfg : StrategyConfig) (candles : List Candle) (ind : IndicatorData)
    (s : SimState) (i : ℕ) : SimState :=
  let candle := cAt candles i
  match s.pos with
  | none =>
    let signal := checkEntrySignal i ind.mainCF ind.secondCF ind.adx ind.plusDI ind.minusDI
      ind.atrPercent cfg.adxThreshold
    if signal ≠ "" then
      let p := openPosition signal candle (gq ind.atr i) s.balance
      { balance := s.balance - p.size * candle.close, pos := some p, trades := s.trades }
    else s
  | some p =>
    if checkExitSignal p candle (gq ind.atr i) then
      let trade0 := closePosition p candle
      let rawPnl := (trade0.exitPrice - trade0.entryPrice) * p.size
      let trade := { trade0 with pnl := if p.side = "SHORT" then -rawPnl else rawPnl }
      { balance := s.balance + trade0.exitPrice * p.size, pos := none,
        trades := s.trades ++ [trade] }
    else s

/-- The executeBacktest loop `for i := 1; i < len(candles); i++` run for the
first `k` iterations (indices 1..k), from the initial balance of 10000. -/
def runLoop (cfg : StrategyConfig) (candles : List Candle) (ind : IndicatorData) (k : ℕ) :
    SimState :=
  (List.range' 1 k).foldl (stepSim cfg candles ind) ⟨10000, none, []⟩

/-- engine.go executeBacktest trading loop plus the forced closure of a
still-open position against the last candle. -/
def simulateTrades (cfg : StrategyConfig) (candles : List Candle) (ind : IndicatorData) :
    SimState :=
  let s := runLoop cfg candles ind (candles.length - 1)
  match s.pos with
  | none => s
  | some p =>
    let lastCandle := cAt candles (candles.length - 1)
    let trade0 := closePosition p lastCandle
    let rawPnl := (trade0.exitPrice - trade0.entryPrice) * p.size
    let trade := { trade0 with pnl := if p.side = "SHORT" then -rawPnl else rawPnl }
    { balance := s.balance + trade0.exitPrice * p.size, pos := none,
      trades := s.trades ++ [trade] }

/-- models.BacktestResult (fields written by calculateMetrics; the Metrics
map is modelled as an association list in insertion order). -/
structure BacktestResult where
  totalTrades : ℕ
  winningTrades : ℕ
  losingTrades : ℕ
  winRate : ℚ
  totalPnL : ℚ
  totalReturn : ℚ
  metrics : List (String × ℚ)
deriving DecidableEq

/-- Go map read `m[k]` on the metrics map: value if present, else 0. -/
def mget (m : List (String × ℚ)) (k : String) : ℚ :=
  match m.find? (fun kv => kv.1 == k) with
  | some kv => kv.2
  | none => 0

/-- engine.go calculateMetrics.  On an empty ledger it returns immediately
with only TotalTrades assigned (all other fields keep their zero values and
the metrics map stays empty). -/
def calculateMetrics (trades : List Trade) (initialBalance finalBalance : ℚ) : BacktestResult :=
  if trades.length = 0 then
    { totalTrades := trades.length, winningTrades := 0, losingTrades := 0,
      winRate := 0, totalPnL := 0, totalReturn := 0, metrics := [] }
  else
    let counts := trades.foldl
      (fun acc t =>
        if t.pnl > 0 then (acc.1 + 1, acc.2.1, acc.2.2.1 + t.pnl, acc.2.2.2)
        else (acc.1, acc.2.1 + 1, acc.2.2.1, acc.2.2.2 + t.pnl))
      ((0 : ℕ), (0 : ℕ), (0 : ℚ), (0 : ℚ))
    let winningTrades := counts.1
    let losingTrades := counts.2.1
    let totalProfit := counts.2.2.1
    let totalLoss := counts.2.2.2
    let m1 := if 0 < winningTrades then [("avg_win", totalProfit / (winningTrades : ℚ))] else []
    let m2 := m1 ++ (if 0 < losingTrades then [("avg_loss", totalLoss / (losingTrades : ℚ))] else [])
    let m3 := m2 ++ (if mget m2 "avg_loss" ≠ 0 then [("profit_factor", totalProfit / (-totalLoss))] else [])
    { totalTrades := trades.length
      winningTrades := winningTrades
      losingTrades := losingTrades
      winRate := (winningTrades : ℚ) / (trades.length : ℚ) * 100
      totalPnL := finalBalance - initialBalance
      totalReturn := (finalBalance / initialBalance - 1) * 100
      metrics := m3 }

/-- Well-formed OHLC candle: `low ≤ high` and `low ≤ close ≤ high`
(the spec's notion of a valid OHLC input for the indicator guarantees). -/
def wfCandle (c : Candle) : Prop := c.low ≤ c.high ∧ c.low ≤ c.close ∧ c.close ≤ c.high

instance (c : Candle) : Decidable (wfCandle c) := by
  unfold wfCandle
  exact inferInstance

/-- Cash-flow contribution of one closed trade to the running balance:
the open debits `size * entryPrice` and the close credits
`size * exitPrice`, so the round trip changes the balance by
`(exitPrice - entryPrice) * size` regardless of side. -/
def tradeDelta (t : Trade) : ℚ := (t.exitPrice - t.entryPrice) * t.size

/-- Amount currently debited from the balance by an open position. -/
def posDebit : Option Position → ℚ
  | none => 0
  | some p => p.size * p.entryPrice

/-- Accounting invariant of the trading loop: the balance always equals the
initial 10000 plus the cash deltas of the closed trades, minus the debit of
the open position; and each recorded pnl is the side-signed cash delta. -/
def BalInv (s : SimState) : Prop :=
  s.balance = 10000 + (s.trades.map tradeDelta).sum - posDebit s.pos ∧
    ∀ t ∈ s.trades, tradeDelta t = (if t.side = "SHORT" then -t.pnl else t.pnl)

/-! ## Helper lemmas -/

theorem clamp_mem (v mn mx : ℤ) (h : mn ≤ mx) : mn ≤ clamp v mn mx ∧ clamp v mn mx ≤ mx := by
  unfold clamp
  split_ifs <;> omega

theorem goSlice_isSome_iff (xs : List Candle) (lo hi : ℤ) :
    (goSlice xs lo hi).isSome ↔ 0 ≤ lo ∧ lo ≤ hi ∧ hi ≤ (xs.length : ℤ) := by
  unfold goSlice
  split_ifs with h <;> simp [h]

theorem calculateNewTotalKlines_mem (cfg : StrategyConfig) (candles : List Candle) (t : ℤ)
    (k : ℤ) (h : calculateNewTotalKlines cfg candles t = some k) :
    k = cfg.totalKlines ∨
      ∃ v, k = clamp v cfg.newTotalKlinesMin cfg.newTotalKlinesMax := by
  unfold calculateNewTotalKlines at h
  cases hg : goSlice candles (t - cfg.totalKlines + 1) (t + 1) with
  | none => rw [hg] at h; exact absurd h (by simp)
  | some w =>
    rw [hg] at h
    dsimp only at h
    split_ifs at h with hlow
    · exact Or.inl (Option.some.inj h).symm
    · exact Or.inr ⟨_, (Option.some.inj h).symm⟩

/-! ## Claim theorems -/

/-- C1, counterexample: the claim says the `newTotalKlines` returned by
`CalculateMainCF` always lies in `[NewTotalKlinesMin, NewTotalKlinesMax]`,
including the degenerate case `t < TotalKlines`.  With
`TotalKlines = 2`, `NewTotalKlinesMin = 3`, `NewTotalKlinesMax = 5` and
`t = 0 < TotalKlines`, the source returns `TotalKlines = 2` without
clamping, and `2 < 3 = NewTotalKlinesMin`. -/
theorem C1_counterexample :
    CalculateMainCF ⟨2, 1, 0, 1/1000, 3, 5, 1, 0⟩ [] 0 0 = some (0, 2) ∧
      ¬ ((3 : ℤ) ≤ 2) := by
  constructor
  · decide
  · decide

/-- C1, amended: whenever `CalculateMainCF` returns, its `newTotalKlines`
component lies in `[NewTotalKlinesMin, NewTotalKlinesMax]` provided the
configuration satisfies `NewTotalKlinesMin ≤ TotalKlines ≤ NewTotalKlinesMax`
(the degenerate branches `t < TotalKlines` and `lowWindow == 0` return
`TotalKlines` unclamped, so without that proviso the bound fails). -/
theorem C1_newTotalKlines_bounds (cfg : StrategyConfig) (candles : List Candle) (t : ℤ)
    (prevCF cf : ℚ) (k : ℤ)
    (hmin : cfg.newTotalKlinesMin ≤ cfg.totalKlines)
    (hmax : cfg.totalKlines ≤ cfg.newTotalKlinesMax)
    (h : CalculateMainCF cfg candles t prevCF = some (cf, k)) :
    cfg.newTotalKlinesMin ≤ k ∧ k ≤ cfg.newTotalKlinesMax := by
  unfold CalculateMainCF at h
  split_ifs at h with ht
  · obtain ⟨-, rfl⟩ := Prod.mk.injEq .. ▸ Option.some.inj h
    exact ⟨hmin, hmax⟩
  · cases hn : calculateNewTotalKlines cfg candles t with
    | none => rw [hn] at h; exact absurd h (by simp)
    | some ntk =>
      rw [hn] at h
      dsimp only at h
      cases hg : goSlice candles (t - ntk + 1) (t + 1) with
      | none => rw [hg] at h; exact absurd h (by simp)
      | some w =>
        rw [hg] at h
        obtain ⟨-, rfl⟩ := Prod.mk.injEq .. ▸ Option.some.inj h
        rcases calculateNewTotalKlines_mem cfg candles t ntk hn with hk | ⟨v, hk⟩
        · exact hk ▸ ⟨hmin, hmax⟩
        · exact hk ▸ clamp_mem v _ _ (le_trans hmin hmax)

/-- C1, witness: a run of `C1_newTotalKlines_bounds` at a concrete input
(`TotalKlines = 2 ∈ [1, 5]`, `t = 0`). -/
theorem C1_witness : (1 : ℤ) ≤ 2 ∧ (2 : ℤ) ≤ 5 :=
  C1_newTotalKlines_bounds ⟨2, 1, 0, 1/1000, 1, 5, 1, 0⟩ [] 0 0 0 2
    (by decide) (by decide) (by decide)

/-- C2, counterexample: the claim says that for `TotalKlines ≤ t < len`,
`CalculateMainCF` never fails for any configuration of the adaptive-window
bounds.  With `TotalKlines = 1`, `NewTotalKlinesMin = NewTotalKlinesMax = 3`
and two candles, at `t = 1` the adaptive window size is clamped to 3 and the
window slice `candles[t-3+1 : t+1] = candles[-1 : 2]` is out of range (the
Go source panics; the embedding returns `none`). -/
theorem C2_counterexample :
    CalculateMainCF ⟨1, 1, 0, 1, 3, 3, 1, 0⟩
        [⟨0, 1, 2, 1, 1, 0⟩, ⟨1, 1, 2, 1, 1, 0⟩] 1 0 = none ∧
      (1 : ℤ) ≥ 1 ∧ (1 : ℤ) < 2 := by
  refine ⟨?_, by decide, by decide⟩
  norm_num [CalculateMainCF, calculateNewTotalKlines, goSlice, findMaxHigh, findMinLow,
    clamp, truncToZero]

/-- C2, amended: for `TotalKlines ≤ t < len`, `CalculateMainCF` computes its
result without failing (both window slices are within bounds) provided
`0 ≤ TotalKlines` and `0 ≤ NewTotalKlinesMin ≤ NewTotalKlinesMax ≤ t + 1`;
for configurations whose bounds allow an adaptive window larger than `t + 1`
the slice start becomes negative and the source panics. -/
theorem C2_window_in_bounds (cfg : StrategyConfig) (candles : List Candle) (t : ℤ)
    (prevCF : ℚ)
    (hTK : 0 ≤ cfg.totalKlines)
    (hmn : 0 ≤ cfg.newTotalKlinesMin)
    (hmm : cfg.newTotalKlinesMin ≤ cfg.newTotalKlinesMax)
    (hmx : cfg.newTotalKlinesMax ≤ t + 1)
    (ht : cfg.totalKlines ≤ t)
    (hlen : t < (candles.length : ℤ)) :
    (CalculateMainCF cfg candles t prevCF).isSome = true := by
  unfold CalculateMainCF
  split_ifs with hlt
  · simp
  · have hg1 : (goSlice candles (t - cfg.totalKlines + 1) (t + 1)).isSome := by
      rw [goSlice_isSome_iff]
      omega
    obtain ⟨w, hw⟩ := Option.isSome_iff_exists.mp hg1
    have hn : (calculateNewTotalKlines cfg candles t).isSome := by
      unfold calculateNewTotalKlines
      rw [hw]
      dsimp only
      split_ifs <;> simp
    obtain ⟨ntk, hntk⟩ := Option.isSome_iff_exists.mp hn
    have hbound : 0 ≤ ntk ∧ ntk ≤ t + 1 := by
      rcases calculateNewTotalKlines_mem cfg candles t ntk hntk with hk | ⟨v, hk⟩
      · omega
      · have := clamp_mem v cfg.newTotalKlinesMin cfg.newTotalKlinesMax hmm
        omega
    rw [hntk]
    dsimp only
    have hg2 : (goSlice candles (t - ntk + 1) (t + 1)).isSome := by
      rw [goSlice_isSome_iff]
      omega
    obtain ⟨w2, hw2⟩ := Option.isSome_iff_exists.mp hg2
    rw [hw2]
    rfl

/-- C2, witness: a run of `C2_window_in_bounds` at a concrete input. -/
theorem C2_witness :
    (CalculateMainCF ⟨1, 1, 0, 1, 0, 1, 1, 0⟩
      [⟨0, 1, 2, 1, 1, 0⟩, ⟨1, 1, 2, 1, 1, 0⟩] 1 0).isSome = true :=
  C2_window_in_bounds ⟨1, 1, 0, 1, 0, 1, 1, 0⟩
    [⟨0, 1, 2, 1, 1, 0⟩, ⟨1, 1, 2, 1, 1, 0⟩] 1 0
    (by decide) (by decide) (by decide) (by decide) (by decide) (by decide)

/-- C7, counterexample: the claim says `ATR[0] = high[0] - low[0]` including
for a series of exactly one candle; the source returns a zero-filled series
for fewer than 2 candles, so a single candle with `high - low = 1` yields
`ATR = [0] ≠ [1]`. -/
theorem C7_counterexample :
    ATRCalculator.Calculate 14 [⟨0, 1, 2, 1, 1, 0⟩] = [0] ∧
      (cAt [⟨0, 1, 2, 1, 1, 0⟩] 0).high - (cAt [⟨0, 1, 2, 1, 1, 0⟩] 0).low = 1 := by
  refine ⟨by decide, ?_⟩
  norm_num [cAt]

/-- C7, amended: for every candle series of length at least 2,
`ATR[0] = high[0] - low[0]`; a shorter series yields a zero-filled series,
so the equality fails for a single candle whose high differs from its low. -/
theorem C7_atr_first (period : ℤ) (candles : List Candle) (h2 : 2 ≤ candles.length) :
    (ATRCalculator.Calculate period candles).getD 0 0 =
      (cAt candles 0).high - (cAt candles 0).low := by
  unfold ATRCalculator.Calculate
  rw [if_neg (by omega)]
  obtain ⟨m, hm⟩ : ∃ m, candles.length = m + 1 := ⟨candles.length - 1, by omega⟩
  rw [hm, List.range_succ_eq_map]
  rfl

/-- C7, witness: a run of `C7_atr_first` on a concrete two-candle series. -/
theorem C7_witness :
    (ATRCalculator.Calculate 14 [⟨0, 1, 2, 1, 1, 0⟩, ⟨1, 1, 3, 2, 2, 0⟩]).getD 0 0 =
      (cAt [⟨0, 1, 2, 1, 1, 0⟩, ⟨1, 1, 3, 2, 2, 0⟩] 0).high -
        (cAt [⟨0, 1, 2, 1, 1, 0⟩, ⟨1, 1, 3, 2, 2, 0⟩] 0).low :=
  C7_atr_first 14 [⟨0, 1, 2, 1, 1, 0⟩, ⟨1, 1, 3, 2, 2, 0⟩] (by decide)

/-- C8: on an empty trade ledger, calculateMetrics returns immediately with
`totalTrades = winningTrades = losingTrades = 0`,
`winRate = totalPnL = totalReturn = 0`, and an empty metrics map — in
particular no `profit_factor`, `avg_win` or `avg_loss` key. -/
theorem C8_metrics_empty (initialBalance finalBalance : ℚ) :
    calculateMetrics [] initialBalance finalBalance =
      ⟨0, 0, 0, 0, 0, 0, []⟩ := rfl

/-- Helper: `mapM` over `Option` of a function that is constantly `some 0`
returns the all-zero list. -/
theorem mapM_eq_replicate_zero (l : List ℕ) (f : ℕ → Option ℚ)
    (h : ∀ x ∈ l, f x = some 0) : l.mapM f = some (List.replicate l.length 0) := by
  induction l with
  | nil => rfl
  | cons a l ih =>
    have ha := h a (List.mem_cons_self a l)
    have ih2 := ih fun x hx => h x (List.mem_cons_of_mem a hx)
    rw [List.mapM_cons, ha, ih2]
    rfl

/-- C9, counterexample: the claim says the SecondCF series is identically
zero for every strategy configuration; with
`SecondTotalKlinesMin = -1` the window slice
`candles[i : i + secondTotalKlines]` has inverted bounds at `i = 1` and the
source panics (embedding: the series is `none`, not all-zero). -/
theorem C9_counterexample :
    secondCFSeries ⟨2, 1, 0, 1, 1, 5, -1, 0⟩
        [⟨0, 1, 2, 1, 1, 0⟩, ⟨1, 1, 2, 1, 1, 0⟩] = none ∧
      ([⟨0, 1, 2, 1, 1, 0⟩, ⟨1, 1, 2, 1, 1, 0⟩] : List Candle).length = 2 := by
  constructor <;> decide

/-- C9, amended: for every candle series and every configuration with
`SecondTotalKlinesMin ≥ 0`, the SecondCF series of the engine's indicator
pass is identically zero: `mainCFEntry = 0` forces
`secondTotalKlines = SecondTotalKlinesMin`, and at the last index of the
passed slice either the forward window does not fit (zero fallback) or the
window is empty and too short to split (previous-CF fallback, which is 0). -/
theorem C9_secondCF_zero (cfg : StrategyConfig) (candles : List Candle)
    (h : 0 ≤ cfg.secondTotalKlinesMin) :
    secondCFSeries cfg candles = some (List.replicate candles.length 0) := by
  unfold secondCFSeries
  have key : ∀ i ∈ List.range candles.length,
      (if i = 0 then some (0 : ℚ)
        else (CalculateSecondCF cfg (candles.take (i + 1)) (i : ℤ) 0 0).map Prod.fst) =
        some 0 := by
    intro i hi
    by_cases h0 : i = 0
    · simp [h0]
    · rw [if_neg h0]
      have hstk : calculateSecondTotalKlines cfg 0 0 = cfg.secondTotalKlinesMin := by
        unfold calculateSecondTotalKlines
        rw [if_pos (Or.inl rfl)]
      have hi' : i < candles.length := List.mem_range.mp hi
      have hlen : (((candles.take (i + 1)).length : ℕ) : ℤ) = (i : ℤ) + 1 := by
        rw [List.length_take]
        omega
      unfold CalculateSecondCF
      rw [hstk]
      by_cases h1 : (1 : ℤ) ≤ cfg.secondTotalKlinesMin
      · rw [if_pos (by rw [hlen]; omega)]
        rfl
      · have hM : cfg.secondTotalKlinesMin = 0 := by omega
        rw [if_neg (by rw [hlen, hM]; omega)]
        have hg : goSlice (candles.take (i + 1)) (i : ℤ) ((i : ℤ) + cfg.secondTotalKlinesMin) =
            some [] := by
          rw [hM]
          unfold goSlice
          rw [if_pos ⟨by omega, by omega, by rw [hlen]; omega⟩]
          have ht0 : ((i : ℤ) + 0 - (i : ℤ)).toNat = 0 := by omega
          rw [ht0, List.take_zero]
        rw [hg]
        rfl
  rw [mapM_eq_replicate_zero _ _ key, List.length_range]

/-- C9, witness: a run of `C9_secondCF_zero` on a concrete configuration
(`SecondTotalKlinesMin = 1`) and series. -/
theorem C9_witness :
    secondCFSeries ⟨2, 1, 0, 1, 1, 5, 1, 0⟩
        [⟨0, 1, 2, 1, 1, 0⟩, ⟨1, 1, 2, 1, 1, 0⟩] = some (List.replicate 2 0) :=
  C9_secondCF_zero ⟨2, 1, 0, 1, 1, 5, 1, 0⟩
    [⟨0, 1, 2, 1, 1, 0⟩, ⟨1, 1, 2, 1, 1, 0⟩] (by decide)

/-- C5: whenever the exit signal fires (the bar's high/low range crosses the
stop-loss or take-profit), the exit price is the triggered level itself —
never the candle close — with the stop-loss checked before the take-profit
for a LONG position and the symmetric priority (stop-loss at the high
first, then take-profit at the low) for a SHORT position. -/
theorem C5_exit_price_level (position : Position) (candle : Candle) (a : ℚ)
    (h : checkExitSignal position candle a = true) :
    (closePosition position candle).exitPrice =
      (if position.side = "LONG" then
        (if candle.low ≤ position.stopLoss then position.stopLoss else position.takeProfit)
      else
        (if position.stopLoss ≤ candle.high then position.stopLoss else position.takeProfit)) := by
  unfold checkExitSignal at h
  by_cases hs : position.side = "LONG"
  · rw [if_pos hs] at h
    rw [if_pos hs]
    by_cases hsl : candle.low ≤ position.stopLoss
    · simp only [closePosition, if_pos hs, if_pos hsl]
    · have hcond : candle.low ≤ position.stopLoss ∨ position.takeProfit ≤ candle.high := by
        by_contra hc
        rw [if_neg hc] at h
        exact Bool.false_ne_true h
      have htp : position.takeProfit ≤ candle.high := hcond.resolve_left hsl
      simp only [closePosition, if_pos hs, if_neg hsl, if_pos htp]
  · rw [if_neg hs] at h
    rw [if_neg hs]
    by_cases hsl : position.stopLoss ≤ candle.high
    · simp only [closePosition, if_neg hs, if_pos hsl]
    · have hcond : position.stopLoss ≤ candle.high ∨ candle.low ≤ position.takeProfit := by
        by_contra hc
        rw [if_neg hc] at h
        exact Bool.false_ne_true h
      have htp : candle.low ≤ position.takeProfit := hcond.resolve_left hsl
      simp only [closePosition, if_neg hs, if_neg hsl, if_pos htp]

/-- C5, witness: a LONG position with stop-loss 96 and take-profit 106
against a bar with low 95 exits at the stop-loss level 96 (the example of
spec section 8). -/
theorem C5_witness :
    (closePosition ⟨"LONG", 100, 0, 1, 96, 106⟩ ⟨1, 100, 97, 95, 96, 0⟩).exitPrice = 96 :=
  (C5_exit_price_level ⟨"LONG", 100, 0, 1, 96, 106⟩ ⟨1, 100, 97, 95, 96, 0⟩ 0
    (by decide)).trans (by decide)

/-- C3, counterexample: the claim says an upward MainCF zero-crossing at
index `i` with `ADX[i] > threshold` and `+DI[i] > -DI[i]` always yields a
LONG entry at `i`.  At `i = 1` all those conditions hold on this input, yet
checkEntrySignal refuses indices below 2, so the whole simulation opens no
position at all. -/
theorem C3_counterexample :
    simulateTrades ⟨2, 1, 0, 1, 1, 5, 1, 10⟩
        [⟨0, 1, 1, 1, 1, 0⟩, ⟨1, 1, 1, 1, 1, 0⟩]
        ⟨[-1, 1], [0, 0], [0, 0], [0, 0], [0, 50], [0, 1], [0, 0]⟩ =
      ⟨10000, none, []⟩ ∧
      (0 : ℚ) < gq [-1, 1] 1 ∧ gq [-1, 1] 0 ≤ 0 ∧ (10 : ℚ) < gq [0, 50] 1 ∧
      gq [0, 0] 1 < gq [0, 1] 1 := by
  refine ⟨by decide, by decide, by decide, by decide, by decide⟩

/-- C3, amended: when the simulator is flat at bar `i` with `i ≥ 2` and
MainCF crosses zero upward at `i` with `ADX[i] > threshold` and
`+DI[i] > -DI[i]`, the loop iteration for index `i` opens a LONG position
whose entry price is the close of candle `i` (and emits no trade at `i`);
the entry happens exactly at that bar. -/
theorem C3_long_entry_at_index (cfg : StrategyConfig) (candles : List Candle)
    (ind : IndicatorData) (s : SimState) (i : ℕ)
    (hflat : s.pos = none) (h2 : 2 ≤ i)
    (hup : 0 < gq ind.mainCF i) (hprev : gq ind.mainCF (i - 1) ≤ 0)
    (hadx : cfg.adxThreshold < gq ind.adx i)
    (hdi : gq ind.minusDI i < gq ind.plusDI i) :
    (stepSim cfg candles ind s i).pos =
        some (openPosition "LONG" (cAt candles i) (gq ind.atr i) s.balance) ∧
      (openPosition "LONG" (cAt candles i) (gq ind.atr i) s.balance).entryPrice =
        (cAt candles i).close ∧
      (stepSim cfg candles ind s i).trades = s.trades := by
  have hsig : checkEntrySignal i ind.mainCF ind.secondCF ind.adx ind.plusDI ind.minusDI
      ind.atrPercent cfg.adxThreshold = "LONG" := by
    unfold checkEntrySignal
    rw [if_neg (by omega), if_pos ⟨hup, hprev, hadx, hdi⟩]
  unfold stepSim
  rw [hflat]
  dsimp only
  rw [hsig, if_pos (by decide : ("LONG" : String) ≠ "")]
  exact ⟨rfl, rfl, rfl⟩

/-- C3, witness: a run of `C3_long_entry_at_index` at a concrete flat state
and index 2 satisfying all entry conditions. -/
theorem C3_witness :
    (stepSim ⟨2, 1, 0, 1, 1, 5, 1, 10⟩ [⟨0, 1, 1, 1, 1, 0⟩, ⟨1, 1, 1, 1, 1, 0⟩, ⟨2, 10, 10, 10, 10, 0⟩]
        ⟨[0, -1, 1], [0, 0, 0], [0, 0, 1], [0, 0, 0], [0, 0, 50], [0, 0, 1], [0, 0, 0]⟩
        ⟨10000, none, []⟩ 2).pos =
      some (openPosition "LONG"
        (cAt [⟨0, 1, 1, 1, 1, 0⟩, ⟨1, 1, 1, 1, 1, 0⟩, ⟨2, 10, 10, 10, 10, 0⟩] 2)
        (gq [0, 0, 1] 2) 10000) :=
  (C3_long_entry_at_index ⟨2, 1, 0, 1, 1, 5, 1, 10⟩
    [⟨0, 1, 1, 1, 1, 0⟩, ⟨1, 1, 1, 1, 1, 0⟩, ⟨2, 10, 10, 10, 10, 0⟩]
    ⟨[0, -1, 1], [0, 0, 0], [0, 0, 1], [0, 0, 0], [0, 0, 50], [0, 0, 1], [0, 0, 0]⟩
    ⟨10000, none, []⟩ 2 rfl (by decide) (by decide) (by decide) (by decide) (by decide)).1

theorem stepSim_balInv (cfg : StrategyConfig) (candles : List Candle) (ind : IndicatorData)
    (s : SimState) (i : ℕ) (h : BalInv s) : BalInv (stepSim cfg candles ind s i) := by
  obtain ⟨hb, hp⟩ := h
  unfold stepSim
  cases hpos : s.pos with
  | none =>
    dsimp only
    split_ifs with hsig
    · constructor
      · rw [hpos] at hb
        dsimp only [posDebit] at hb ⊢
        dsimp only [openPosition]
        rw [hb]
        ring
      · exact hp
    · exact ⟨hb, hp⟩
  | some p =>
    dsimp only
    by_cases hexit : checkExitSignal p (cAt candles i) (gq ind.atr i) = true
    · rw [if_pos hexit]
      constructor
      · rw [hpos] at hb
        dsimp only [posDebit] at hb ⊢
        rw [List.map_append, List.sum_append]
        dsimp only [tradeDelta, closePosition, List.map_cons, List.map_nil]
        rw [hb]
        dsimp only [List.sum_cons, List.sum_nil]
        ring
      · intro t ht
        rcases List.mem_append.mp ht with h1 | h1
        · exact hp t h1
        · rw [List.mem_singleton.mp h1]
          dsimp only [tradeDelta, closePosition]
          by_cases hshort : p.side = "SHORT"
          · rw [if_pos hshort, if_pos hshort, neg_neg]
          · rw [if_neg hshort, if_neg hshort]
    · rw [if_neg hexit]
      exact ⟨hb, hp⟩

theorem foldl_balInv (cfg : StrategyConfig) (candles : List Candle) (ind : IndicatorData)
    (l : List ℕ) (s : SimState) (h : BalInv s) :
    BalInv (l.foldl (stepSim cfg candles ind) s) := by
  induction l generalizing s with
  | nil => exact h
  | cons a l ih => exact ih _ (stepSim_balInv cfg candles ind s a h)

theorem simulateTrades_balInv (cfg : StrategyConfig) (candles : List Candle)
    (ind : IndicatorData) :
    (simulateTrades cfg candles ind).pos = none ∧
      (simulateTrades cfg candles ind).balance =
        10000 + ((simulateTrades cfg candles ind).trades.map tradeDelta).sum ∧
      ∀ t ∈ (simulateTrades cfg candles ind).trades,
        tradeDelta t = (if t.side = "SHORT" then -t.pnl else t.pnl) := by
  have h0 : BalInv (⟨10000, none, []⟩ : SimState) := by
    constructor
    · simp [posDebit]
    · intro t ht
      exact absurd ht (List.not_mem_nil t)
  have hrun : BalInv (runLoop cfg candles ind (candles.length - 1)) :=
    foldl_balInv cfg candles ind _ _ h0
  obtain ⟨hb, hp⟩ := hrun
  unfold simulateTrades
  dsimp only
  cases hpos : (runLoop cfg candles ind (candles.length - 1)).pos with
  | none =>
    dsimp only
    rw [hpos] at hb
    dsimp only [posDebit] at hb
    exact ⟨hpos, by rw [hb]; ring, hp⟩
  | some p =>
    dsimp only
    rw [hpos] at hb
    dsimp only [posDebit] at hb
    refine ⟨rfl, ?_, ?_⟩
    · rw [List.map_append, List.sum_append]
      dsimp only [tradeDelta, closePosition, List.map_cons, List.map_nil]
      rw [hb]
      dsimp only [List.sum_cons, List.sum_nil]
      ring
    · intro t ht
      rcases List.mem_append.mp ht with h1 | h1
      · exact hp t h1
      · rw [List.mem_singleton.mp h1]
        dsimp only [tradeDelta, closePosition]
        by_cases hshort : p.side = "SHORT"
        · rw [if_pos hshort, if_pos hshort, neg_neg]
        · rw [if_neg hshort, if_neg hshort]

theorem sum_delta_eq (l : List Trade)
    (h : ∀ t ∈ l, tradeDelta t = (if t.side = "SHORT" then -t.pnl else t.pnl)) :
    (l.map tradeDelta).sum =
      (l.map fun t => t.pnl).sum -
        2 * ((l.filter fun t => t.side == "SHORT").map fun t => t.pnl).sum := by
  induction l with
  | nil => simp
  | cons a l ih =>
    have ha := h a (List.mem_cons_self a l)
    have ih2 := ih fun t ht => h t (List.mem_cons_of_mem a ht)
    by_cases hs : a.side = "SHORT"
    · rw [List.map_cons, List.sum_cons, ha, if_pos hs,
        List.filter_cons_of_pos (by simp [hs]), List.map_cons, List.sum_cons,
        List.map_cons, List.sum_cons, ih2]
      ring
    · rw [List.map_cons, List.sum_cons, ha, if_neg hs,
        List.filter_cons_of_neg (by simp [hs]), List.map_cons, List.sum_cons, ih2]
      ring

/-- C10, counterexample: the claim says `totalPnL` equals the sum of the
recorded per-trade PnL values ONLY when no SHORT trade occurs.  This run
produces exactly one SHORT trade, force-closed at its own entry price, so
its recorded PnL is 0 and the equality still holds. -/
theorem C10_counterexample :
    ((simulateTrades ⟨2, 1, 0, 1, 1, 5, 1, 10⟩
          [⟨0, 1, 1, 1, 1, 0⟩, ⟨1, 1, 1, 1, 1, 0⟩, ⟨2, 10, 10, 10, 10, 0⟩, ⟨3, 10, 10, 9, 10, 0⟩]
          ⟨[0, 1, -1, -1], [0, 0, 0, 0], [0, 0, 1, 0], [0, 0, 0, 0], [0, 0, 50, 0],
            [0, 0, 0, 0], [0, 0, 1, 0]⟩).trades.map fun t => t.side) = ["SHORT"] ∧
      (simulateTrades ⟨2, 1, 0, 1, 1, 5, 1, 10⟩
          [⟨0, 1, 1, 1, 1, 0⟩, ⟨1, 1, 1, 1, 1, 0⟩, ⟨2, 10, 10, 10, 10, 0⟩, ⟨3, 10, 10, 9, 10, 0⟩]
          ⟨[0, 1, -1, -1], [0, 0, 0, 0], [0, 0, 1, 0], [0, 0, 0, 0], [0, 0, 50, 0],
            [0, 0, 0, 0], [0, 0, 1, 0]⟩).balance - 10000 =
        ((simulateTrades ⟨2, 1, 0, 1, 1, 5, 1, 10⟩
            [⟨0, 1, 1, 1, 1, 0⟩, ⟨1, 1, 1, 1, 1, 0⟩, ⟨2, 10, 10, 10, 10, 0⟩, ⟨3, 10, 10, 9, 10, 0⟩]
            ⟨[0, 1, -1, -1], [0, 0, 0, 0], [0, 0, 1, 0], [0, 0, 0, 0], [0, 0, 50, 0],
              [0, 0, 0, 0], [0, 0, 1, 0]⟩).trades.map fun t => t.pnl).sum := by
  constructor <;>
    norm_num +decide [simulateTrades, runLoop, stepSim, checkEntrySignal, checkExitSignal,
      openPosition, closePosition, gq, cAt, List.range']

/-- C10, amended: over any run, the final balance differs from the initial
10000 by the sum of `(exitPrice - entryPrice) * size` over all emitted
trades; that per-trade cash delta equals the recorded PnL for a non-SHORT
trade and its negation for a SHORT trade; consequently
`totalPnL = finalBalance - initialBalance` equals the sum of recorded PnL
values exactly when the SHORT trades' recorded PnL sums to zero — in
particular whenever no SHORT trade occurs, but also e.g. for a SHORT trade
with zero PnL. -/
theorem C10_balance_identity (cfg : StrategyConfig) (candles : List Candle)
    (ind : IndicatorData) :
    (simulateTrades cfg candles ind).balance - 10000 =
        ((simulateTrades cfg candles ind).trades.map tradeDelta).sum ∧
      (∀ t ∈ (simulateTrades cfg candles ind).trades,
        (t.exitPrice - t.entryPrice) * t.size = (if t.side = "SHORT" then -t.pnl else t.pnl)) ∧
      ((simulateTrades cfg candles ind).balance - 10000 =
          ((simulateTrades cfg candles ind).trades.map fun t => t.pnl).sum ↔
        (((simulateTrades cfg candles ind).trades.filter fun t => t.side == "SHORT").map
            (fun t => t.pnl)).sum = 0) := by
  obtain ⟨-, hb, hrel⟩ := simulateTrades_balInv cfg candles ind
  have hb' : (simulateTrades cfg candles ind).balance - 10000 =
      ((simulateTrades cfg candles ind).trades.map tradeDelta).sum := by
    rw [hb]; ring
  refine ⟨hb', fun t ht => ?_, ?_⟩
  · have := hrel t ht
    rwa [tradeDelta] at this
  · rw [hb', sum_delta_eq _ hrel]
    constructor
    · intro h; linarith
    · intro h; rw [h]; ring

/-- C10, witness: the balance identity instantiated at a concrete run. -/
theorem C10_witness :
    (simulateTrades ⟨2, 1, 0, 1, 1, 5, 1, 10⟩ [] ⟨[], [], [], [], [], [], []⟩).balance - 10000 =
      ((simulateTrades ⟨2, 1, 0, 1, 1, 5, 1, 10⟩ []
          ⟨[], [], [], [], [], [], []⟩).trades.map tradeDelta).sum :=
  (C10_balance_identity ⟨2, 1, 0, 1, 1, 5, 1, 10⟩ [] ⟨[], [], [], [], [], [], []⟩).1

theorem runLoop_succ (cfg : StrategyConfig) (candles : List Candle) (ind : IndicatorData)
    (k : ℕ) :
    runLoop cfg candles ind (k + 1) =
      stepSim cfg candles ind (runLoop cfg candles ind k) (k + 1) := by
  unfold runLoop
  rw [List.range'_concat, List.foldl_append]
  norm_num
  rw [Nat.add_comm 1 k]

theorem runLoop_time_inv (cfg : StrategyConfig) (candles : List Candle) (ind : IndicatorData)
    (hm : ∀ i j : ℕ, i < j → j < candles.length →
      (cAt candles i).timestamp < (cAt candles j).timestamp) :
    ∀ k, k < candles.length →
      (∀ t ∈ (runLoop cfg candles ind k).trades, t.entryTime ≤ t.exitTime) ∧
      (∀ p, (runLoop cfg candles ind k).pos = some p →
        p.entryTime ≤ (cAt candles k).timestamp) := by
  intro k
  induction k with
  | zero =>
    intro _
    constructor
    · intro t ht
      exact absurd ht (List.not_mem_nil t)
    · intro p hp
      exact absurd hp (by simp [runLoop, List.range'])
  | succ k ih =>
    intro hk1
    obtain ⟨iht, ihp⟩ := ih (by omega)
    rw [runLoop_succ]
    unfold stepSim
    cases hpos : (runLoop cfg candles ind k).pos with
    | none =>
      dsimp only
      split_ifs with hsig
      · constructor
        · exact iht
        · intro p hp
          obtain rfl := (Option.some.inj hp).symm
          exact le_refl _
      · exact ⟨iht, fun p hp => absurd (hpos.symm.trans hp) (by simp)⟩
    | some p =>
      dsimp only
      by_cases hexit : checkExitSignal p (cAt candles (k + 1)) (gq ind.atr (k + 1)) = true
      · rw [if_pos hexit]
        constructor
        · intro t ht
          rcases List.mem_append.mp ht with h1 | h1
          · exact iht t h1
          · rw [List.mem_singleton.mp h1]
            dsimp only [closePosition]
            have h2 := ihp p hpos
            have h3 := hm k (k + 1) (by omega) hk1
            omega
        · intro q hq
          exact absurd hq (by simp)
      · rw [if_neg hexit]
        refine ⟨iht, fun q hq => ?_⟩
        obtain rfl : p = q := Option.some.inj (hpos.symm.trans hq)
        exact le_of_lt (lt_of_le_of_lt (ihp p hpos) (hm k (k + 1) (by omega) hk1))

/-- C4, counterexample: the claim says every trade — including the forced
closure at the final candle — has `exitTime` strictly greater than
`entryTime`.  On this input the entry signal fires at the final candle
(index 2), the loop ends, and the forced closure converts the position
against that same candle: the single emitted trade has
`entryTime = exitTime = 2` although the timestamps 0 < 1 < 2 are strictly
increasing. -/
theorem C4_counterexample :
    ((simulateTrades ⟨2, 1, 0, 1, 1, 5, 1, 10⟩
          [⟨0, 1, 1, 1, 1, 0⟩, ⟨1, 1, 1, 1, 1, 0⟩, ⟨2, 10, 10, 10, 10, 0⟩]
          ⟨[0, -1, 1], [0, 0, 0], [0, 0, 0], [0, 0, 0], [0, 0, 50], [0, 0, 1],
            [0, 0, 0]⟩).trades.map fun t => (t.entryTime, t.exitTime)) = [(2, 2)] ∧
      ((0 : ℤ) < 1 ∧ (1 : ℤ) < 2) := by
  constructor <;> decide

/-- C4, amended: given strictly increasing candle timestamps, every trade
emitted by the simulation satisfies `exitTime ≥ entryTime`; the inequality
is strict except for the forced closure of a position opened at the final
candle itself, where the two times coincide. -/
theorem C4_exit_after_entry (cfg : StrategyConfig) (candles : List Candle)
    (ind : IndicatorData)
    (hm : ∀ i j : ℕ, i < j → j < candles.length →
      (cAt candles i).timestamp < (cAt candles j).timestamp) :
    ∀ t ∈ (simulateTrades cfg candles ind).trades, t.entryTime ≤ t.exitTime := by
  unfold simulateTrades
  dsimp only
  rcases Nat.eq_zero_or_pos candles.length with hn | hn
  · rw [hn]
    intro t ht
    exact absurd ht (List.not_mem_nil t)
  · obtain ⟨h1, h2⟩ := runLoop_time_inv cfg candles ind hm (candles.length - 1) (by omega)
    cases hpos : (runLoop cfg candles ind (candles.length - 1)).pos with
    | none =>
      dsimp only
      exact h1
    | some p =>
      dsimp only
      intro t ht
      rcases List.mem_append.mp ht with hmem | hmem
      · exact h1 t hmem
      · rw [List.mem_singleton.mp hmem]
        dsimp only [closePosition]
        exact h2 p hpos

/-- C4, witness: `C4_exit_after_entry` instantiated at the concrete input of
the counterexample, rephrased without binders through `List.all`. -/
theorem C4_witness :
    ((simulateTrades ⟨2, 1, 0, 1, 1, 5, 1, 10⟩
        [⟨0, 1, 1, 1, 1, 0⟩, ⟨1, 1, 1, 1, 1, 0⟩, ⟨2, 10, 10, 10, 10, 0⟩]
        ⟨[0, -1, 1], [0, 0, 0], [0, 0, 0], [0, 0, 0], [0, 0, 50], [0, 0, 1],
          [0, 0, 0]⟩).trades.all fun t => decide (t.entryTime ≤ t.exitTime)) = true := by
  rw [List.all_eq_true]
  intro t ht
  exact decide_eq_true
    (C4_exit_after_entry ⟨2, 1, 0, 1, 1, 5, 1, 10⟩
      [⟨0, 1, 1, 1, 1, 0⟩, ⟨1, 1, 1, 1, 1, 0⟩, ⟨2, 10, 10, 10, 10, 0⟩]
      ⟨[0, -1, 1], [0, 0, 0], [0, 0, 0], [0, 0, 0], [0, 0, 50], [0, 0, 1], [0, 0, 0]⟩
      (by intro i j hij hj
          have hj3 : j < 3 := by simpa using hj
          interval_cases j <;> interval_cases i <;> decide) t ht)

theorem wf_cAt (candles : List Candle) (h : ∀ c ∈ candles, wfCandle c) (i : ℕ) :
    wfCandle (cAt candles i) := by
  unfold cAt
  by_cases hi : i < candles.length
  · rw [List.getD_eq_getElem candles defaultCandle hi]
    exact h _ (List.getElem_mem hi)
  · rw [List.getD_eq_default candles defaultCandle (by omega)]
    exact ⟨le_refl 0, le_refl 0, le_refl 0⟩

theorem alphaOf_pos (p : ℤ) (hp : 1 ≤ p) : 0 < alphaOf p := by
  unfold alphaOf
  have h1 : (1 : ℚ) ≤ (p : ℚ) := by exact_mod_cast hp
  exact div_pos (by norm_num) (by linarith)

theorem alphaOf_le_one (p : ℤ) (hp : 1 ≤ p) : alphaOf p ≤ 1 := by
  unfold alphaOf
  have h1 : (1 : ℚ) ≤ (p : ℚ) := by exact_mod_cast hp
  rw [div_le_one (by linarith)]
  linarith

theorem ema_nonneg (alpha : ℚ) (f : ℕ → ℚ) (h0 : 0 ≤ alpha) (h1 : alpha ≤ 1)
    (hf : ∀ i, 0 ≤ f i) : ∀ i, 0 ≤ ema alpha f i := by
  intro i
  induction i with
  | zero => exact hf 0
  | succ n ih =>
    simp only [ema]
    have ha := mul_nonneg h0 (hf (n + 1))
    have hb := mul_nonneg (by linarith : (0 : ℚ) ≤ 1 - alpha) ih
    linarith

theorem ema_le_ema (alpha : ℚ) (f g : ℕ → ℚ) (h0 : 0 ≤ alpha) (h1 : alpha ≤ 1)
    (hfg : ∀ i, f i ≤ g i) : ∀ i, ema alpha f i ≤ ema alpha g i := by
  intro i
  induction i with
  | zero => exact hfg 0
  | succ n ih =>
    simp only [ema]
    have ha := mul_le_mul_of_nonneg_left (hfg (n + 1)) h0
    have hb := mul_le_mul_of_nonneg_left ih (by linarith : (0 : ℚ) ≤ 1 - alpha)
    linarith

theorem ema_interval (alpha : ℚ) (f : ℕ → ℚ) (lo hi : ℚ) (h0 : 0 ≤ alpha) (h1 : alpha ≤ 1)
    (hf : ∀ i, lo ≤ f i ∧ f i ≤ hi) : ∀ i, lo ≤ ema alpha f i ∧ ema alpha f i ≤ hi := by
  intro i
  induction i with
  | zero => exact hf 0
  | succ n ih =>
    obtain ⟨hl, hh⟩ := ih
    obtain ⟨hfl, hfh⟩ := hf (n + 1)
    have h1' : (0 : ℚ) ≤ 1 - alpha := by linarith
    constructor <;> simp only [ema]
    · have ha := mul_le_mul_of_nonneg_left hfl h0
      have hb := mul_le_mul_of_nonneg_left hl h1'
      linarith
    · have ha := mul_le_mul_of_nonneg_left hfh h0
      have hb := mul_le_mul_of_nonneg_left hh h1'
      linarith

theorem trF_nonneg (candles : List Candle) (hwf : ∀ c ∈ candles, wfCandle c) :
    ∀ i, 0 ≤ trF candles i := by
  intro i
  cases i with
  | zero =>
    have h := wf_cAt candles hwf 0
    simp only [trF]
    linarith [h.1]
  | succ n =>
    have h := wf_cAt candles hwf (n + 1)
    simp only [trF]
    have hhl : 0 ≤ (cAt candles (n + 1)).high - (cAt candles (n + 1)).low := by linarith [h.1]
    exact le_trans hhl (le_max_left _ _)

theorem plusDMF_nonneg (candles : List Candle) : ∀ i, 0 ≤ plusDMF candles i := by
  intro i
  cases i with
  | zero => exact le_refl 0
  | succ n =>
    simp only [plusDMF]
    split_ifs with h
    · linarith [h.2]
    · exact le_refl 0

theorem minusDMF_nonneg (candles : List Candle) : ∀ i, 0 ≤ minusDMF candles i := by
  intro i
  cases i with
  | zero => exact le_refl 0
  | succ n =>
    simp only [minusDMF]
    split_ifs with h
    · linarith [h.2]
    · exact le_refl 0

theorem plusDMF_le_trF (candles : List Candle) (hwf : ∀ c ∈ candles, wfCandle c) :
    ∀ i, plusDMF candles i ≤ trF candles i := by
  intro i
  cases i with
  | zero => exact trF_nonneg candles hwf 0
  | succ n =>
    have hn := wf_cAt candles hwf n
    simp only [plusDMF, trF]
    split_ifs with h
    · have hc : (cAt candles (n + 1)).high - (cAt candles n).high ≤
          |(cAt candles (n + 1)).high - (cAt candles n).close| := by
        have hstep : (cAt candles (n + 1)).high - (cAt candles n).high ≤
            (cAt candles (n + 1)).high - (cAt candles n).close := by
          linarith [hn.2.2]
        exact le_trans hstep (le_abs_self _)
      exact le_trans hc (le_trans (le_max_left _ _) (le_max_right _ _))
    · exact trF_nonneg candles hwf (n + 1)

theorem minusDMF_le_trF (candles : List Candle) (hwf : ∀ c ∈ candles, wfCandle c) :
    ∀ i, minusDMF candles i ≤ trF candles i := by
  intro i
  cases i with
  | zero => exact trF_nonneg candles hwf 0
  | succ n =>
    have hn := wf_cAt candles hwf n
    simp only [minusDMF, trF]
    split_ifs with h
    · have hc : (cAt candles n).low - (cAt candles (n + 1)).low ≤
          |(cAt candles (n + 1)).low - (cAt candles n).close| := by
        have hstep : (cAt candles n).low - (cAt candles (n + 1)).low ≤
            (cAt candles n).close - (cAt candles (n + 1)).low := by
          linarith [hn.2.1]
        exact le_trans hstep (by rw [abs_sub_comm]; exact le_abs_self _)
      exact le_trans hc (le_trans (le_max_right _ _) (le_max_right _ _))
    · exact trF_nonneg candles hwf (n + 1)

theorem plusDIF_bounds (p : ℤ) (candles : List Candle) (hp : 1 ≤ p)
    (hwf : ∀ c ∈ candles, wfCandle c) :
    ∀ i, 0 ≤ plusDIF p candles i ∧ plusDIF p candles i ≤ 100 := by
  intro i
  have h0 := le_of_lt (alphaOf_pos p hp)
  have h1 := alphaOf_le_one p hp
  have hTnn := ema_nonneg (alphaOf p) (trF candles) h0 h1 (trF_nonneg candles hwf) i
  have hPnn := ema_nonneg (alphaOf p) (plusDMF candles) h0 h1 (plusDMF_nonneg candles) i
  have hPT := ema_le_ema (alphaOf p) (plusDMF candles) (trF candles) h0 h1
    (plusDMF_le_trF candles hwf) i
  unfold plusDIF
  split_ifs with hT
  · have hTpos : 0 < ema (alphaOf p) (trF candles) i := lt_of_le_of_ne hTnn (Ne.symm hT)
    constructor
    · exact mul_nonneg (div_nonneg hPnn hTnn) (by norm_num)
    · have hdiv : ema (alphaOf p) (plusDMF candles) i / ema (alphaOf p) (trF candles) i ≤ 1 :=
        (div_le_one hTpos).mpr hPT
      linarith
  · norm_num

theorem minusDIF_bounds (p : ℤ) (candles : List Candle) (hp : 1 ≤ p)
    (hwf : ∀ c ∈ candles, wfCandle c) :
    ∀ i, 0 ≤ minusDIF p candles i ∧ minusDIF p candles i ≤ 100 := by
  intro i
  have h0 := le_of_lt (alphaOf_pos p hp)
  have h1 := alphaOf_le_one p hp
  have hTnn := ema_nonneg (alphaOf p) (trF candles) h0 h1 (trF_nonneg candles hwf) i
  have hMnn := ema_nonneg (alphaOf p) (minusDMF candles) h0 h1 (minusDMF_nonneg candles) i
  have hMT := ema_le_ema (alphaOf p) (minusDMF candles) (trF candles) h0 h1
    (minusDMF_le_trF candles hwf) i
  unfold minusDIF
  split_ifs with hT
  · have hTpos : 0 < ema (alphaOf p) (trF candles) i := lt_of_le_of_ne hTnn (Ne.symm hT)
    constructor
    · exact mul_nonneg (div_nonneg hMnn hTnn) (by norm_num)
    · have hdiv : ema (alphaOf p) (minusDMF candles) i / ema (alphaOf p) (trF candles) i ≤ 1 :=
        (div_le_one hTpos).mpr hMT
      linarith
  · norm_num

theorem dxF_bounds (p : ℤ) (candles : List Candle) (hp : 1 ≤ p)
    (hwf : ∀ c ∈ candles, wfCandle c) :
    ∀ i, 0 ≤ dxF p candles i ∧ dxF p candles i ≤ 100 := by
  intro i
  obtain ⟨hp0, hp100⟩ := plusDIF_bounds p candles hp hwf i
  obtain ⟨hm0, hm100⟩ := minusDIF_bounds p candles hp hwf i
  unfold dxF
  split_ifs with hs
  · have hspos : 0 < plusDIF p candles i + minusDIF p candles i :=
      lt_of_le_of_ne (by linarith) (Ne.symm hs)
    have habs : |plusDIF p candles i - minusDIF p candles i| ≤
        plusDIF p candles i + minusDIF p candles i :=
      abs_le.mpr ⟨by linarith, by linarith⟩
    have hdiv : |plusDIF p candles i - minusDIF p candles i| /
        (plusDIF p candles i + minusDIF p candles i) ≤ 1 :=
      (div_le_one hspos).mpr habs
    constructor
    · exact mul_nonneg (div_nonneg (abs_nonneg _) (le_of_lt hspos)) (by norm_num)
    · linarith
  · norm_num

/-- C6: for any well-formed candle series and any positive smoothing period,
every value of the ADX, +DI and -DI series returned by
ADXCalculator.Calculate lies in [0, 100]; in particular none is negative. -/
theorem C6_adx_di_bounds (period : ℤ) (candles : List Candle)
    (hp : 1 ≤ period) (hwf : ∀ c ∈ candles, wfCandle c) :
    (∀ x ∈ (ADXCalculator.Calculate period candles).1, 0 ≤ x ∧ x ≤ 100) ∧
      (∀ x ∈ (ADXCalculator.Calculate period candles).2.1, 0 ≤ x ∧ x ≤ 100) ∧
      (∀ x ∈ (ADXCalculator.Calculate period candles).2.2, 0 ≤ x ∧ x ≤ 100) := by
  have h0 := le_of_lt (alphaOf_pos period hp)
  have h1 := alphaOf_le_one period hp
  unfold ADXCalculator.Calculate
  split_ifs with hn
  · refine ⟨?_, ?_, ?_⟩ <;>
      · intro x hx
        rw [List.eq_of_mem_replicate hx]
        norm_num
  · refine ⟨?_, ?_, ?_⟩ <;> intro x hx <;> obtain ⟨i, -, rfl⟩ := List.mem_map.mp hx
    · exact ema_interval (alphaOf period) (dxF period candles) 0 100 h0 h1
        (dxF_bounds period candles hp hwf) i
    · exact plusDIF_bounds period candles hp hwf i
    · exact minusDIF_bounds period candles hp hwf i

/-- C6, witness: `C6_adx_di_bounds` instantiated at period 14 on a concrete
well-formed two-candle series, specialised to the second +DI value. -/
theorem C6_witness :
    0 ≤ ((ADXCalculator.Calculate 14 [⟨0, 1, 2, 1, 1, 0⟩, ⟨1, 1, 3, 2, 2, 0⟩]).2.1.getD 1 0) ∧
      ((ADXCalculator.Calculate 14 [⟨0, 1, 2, 1, 1, 0⟩, ⟨1, 1, 3, 2, 2, 0⟩]).2.1.getD 1 0) ≤ 100 := by
  have hlen : 1 < ((ADXCalculator.Calculate 14
      [⟨0, 1, 2, 1, 1, 0⟩, ⟨1, 1, 3, 2, 2, 0⟩]).2.1).length := by
    norm_num [ADXCalculator.Calculate]
  have hmem : ((ADXCalculator.Calculate 14 [⟨0, 1, 2, 1, 1, 0⟩, ⟨1, 1, 3, 2, 2, 0⟩]).2.1.getD 1 0) ∈
      (ADXCalculator.Calculate 14 [⟨0, 1, 2, 1, 1, 0⟩, ⟨1, 1, 3, 2, 2, 0⟩]).2.1 := by
    rw [List.getD_eq_getElem _ _ hlen]
    exact List.getElem_mem hlen
  exact (C6_adx_di_bounds 14 [⟨0, 1, 2, 1, 1, 0⟩, ⟨1, 1, 3, 2, 2, 0⟩]
    (by decide) (by decide)).2.1 _ hmem

end CFBacktester
